import Mathlib

/-!
# go-wrk: the statistics aggregator and the session configuration of `main`

A shallow embedding of `src/go-wrk.go` (function `main`) and of the helpers of
`src/util/util.go` it calls.

Conventions of the embedding.

* Go's `int`, `int64` and `time.Duration` (an `int64` count of nanoseconds) are
  mathematical integers; every `+`, `*` and `/` of the source whose result can
  leave the 64-bit range is followed by `wrapInt64`, Go's two's-complement
  wrap-around.  `int` is taken to be 64 bits wide, as on every 64-bit target.
* The `select` of the aggregation loop receives from two channels.  Which
  channel delivers next is decided by the scheduler, so the loop is a function
  of the stream of events it receives: interrupts interleaved with results.
* A Go string is its list of characters.
* `os.Exit(1)` after a printed message is the `Except.error` of that message.
-/

namespace GoWrk

/-! ## Machine integers -/

/-- Two's-complement wrap-around of an integer into the range of `int64`. -/
def wrapInt64 (x : Int) : Int := (x + 2 ^ 63) % 2 ^ 64 - 2 ^ 63

/-- The integer `x` is a value of `int64`. -/
def fitsInt64 (x : Int) : Prop := -2 ^ 63 ≤ x ∧ x < 2 ^ 63

instance instDecidableFitsInt64 (x : Int) : Decidable (fitsInt64 x) := by
  unfold fitsInt64
  infer_instance

/-- The constant `time.Minute`, in nanoseconds. -/
def timeMinute : Int := 60000000000

/-! ## `loader.RequesterStats` and the helpers of `util` -/

/-- Modelled from the spec: the declaration of `loader.RequesterStats` (package
`loader` is imported by `go-wrk.go` and is not among the sources).  The six
fields are the ones `main` reads and writes; `TotRespSize` is an `int64`, the
three times are `time.Duration`, the two counters are `int`. -/
structure RequesterStats where
  TotRespSize : Int
  TotDuration : Int
  MinRequestTime : Int
  MaxRequestTime : Int
  NumRequests : Int
  NumErrs : Int
deriving DecidableEq, Repr

/-- `util.MaxDuration`. -/
def MaxDuration (d1 d2 : Int) : Int :=
  if d1 > d2 then d1 else d2

/-- `util.MinDuration`. -/
def MinDuration (d1 d2 : Int) : Int :=
  if d1 < d2 then d1 else d2

/-- Modelled from the spec: the record a worker of package `loader` emits (the
worker loop is not among the sources).  Its `MinRequestTime` is seeded at the
sentinel and only lowered by a request, its `MaxRequestTime` is seeded at zero
and only raised, so `MinRequestTime` is at most the sentinel and
`MaxRequestTime` is not negative.  The sentinel is `time.Minute`, the value
line 178 seeds the merged record with. -/
def workerRecord (w : RequesterStats) : Prop :=
  w.MinRequestTime ≤ timeMinute ∧ 0 ≤ w.MaxRequestTime

instance instDecidableWorkerRecord (w : RequesterStats) : Decidable (workerRecord w) := by
  unfold workerRecord
  infer_instance

/-! ## The aggregation loop of `main` (go-wrk.go, lines 177-194) -/

/-- What the `select` of the aggregation loop can receive: an interrupt from
`sigChan` or the terminal statistics of one worker from `statsAggregator`. -/
inductive Event where
  | interrupt : Event
  | result (stats : RequesterStats) : Event
deriving DecidableEq, Repr

/-- The variables of `main` the aggregation loop updates.  `stopCalls` counts
the calls of `loadGen.Stop()`. -/
structure LoopState where
  responders : Int
  aggStats : RequesterStats
  stopCalls : Nat
deriving DecidableEq, Repr

/-- Lines 177-178: `responders := 0` and
`aggStats := loader.RequesterStats{MinRequestTime: time.Minute}`. -/
def initState : LoopState :=
  { responders := 0
    aggStats :=
      { TotRespSize := 0, TotDuration := 0, MinRequestTime := timeMinute,
        MaxRequestTime := 0, NumRequests := 0, NumErrs := 0 }
    stopCalls := 0 }

/-- Lines 186-191: the six updates of `aggStats` by one worker result. -/
def mergeStats (aggStats stats : RequesterStats) : RequesterStats :=
  { NumErrs := wrapInt64 (aggStats.NumErrs + stats.NumErrs)
    NumRequests := wrapInt64 (aggStats.NumRequests + stats.NumRequests)
    TotRespSize := wrapInt64 (aggStats.TotRespSize + stats.TotRespSize)
    TotDuration := wrapInt64 (aggStats.TotDuration + stats.TotDuration)
    MaxRequestTime := MaxDuration aggStats.MaxRequestTime stats.MaxRequestTime
    MinRequestTime := MinDuration aggStats.MinRequestTime stats.MinRequestTime }

/-- One pass through the `select` (lines 181-193).  `responders++` is exact:
it runs only while `responders < goroutines`, so it cannot overflow. -/
def selectStep (st : LoopState) : Event → LoopState
  | Event.interrupt => { st with stopCalls := st.stopCalls + 1 }
  | Event.result stats =>
      { st with
        aggStats := mergeStats st.aggStats stats
        responders := st.responders + 1 }

/-- The loop `for responders < goroutines { select ... }` run on a stream of
events.  It returns the state at loop exit together with the events it has not
consumed, or `none` when the stream ends while the loop still waits (the
program then blocks in `select`). -/
def aggLoop (goroutines : Int) : LoopState → List Event → Option (LoopState × List Event)
  | st, [] => if st.responders < goroutines then none else some (st, [])
  | st, e :: rest =>
      if st.responders < goroutines then aggLoop goroutines (selectStep st e) rest
      else some (st, e :: rest)

/-- The worker results of an event stream, in arrival order. -/
def workerResults : List Event → List RequesterStats
  | [] => []
  | Event.interrupt :: rest => workerResults rest
  | Event.result stats :: rest => stats :: workerResults rest

/-- The number of interrupts of an event stream. -/
def interruptCount : List Event → Nat
  | [] => 0
  | Event.interrupt :: rest => interruptCount rest + 1
  | Event.result _ :: rest => interruptCount rest

/-! ## After the loop (go-wrk.go, lines 196-205) -/

/-- Go's integer division `a / b` on `int64`: a run-time panic (`none`) when
the divisor is zero, otherwise the quotient truncated toward zero and wrapped
(the wrap changes the quotient only for `math.MinInt64 / -1`). -/
def goDiv (a b : Int) : Option Int :=
  if b = 0 then none else some (wrapInt64 (Int.tdiv a b))

/-- How the aggregator ends: with the message `No statistics collected`, with
an integer division by zero, or with a report.  The two floating-point rates
`reqRate` and `bytesRate` of the report are not part of the embedding. -/
inductive Outcome where
  | noStatistics : Outcome
  | divideByZero : Outcome
  | report (avgThreadDur avgReqTime : Int) (aggStats : RequesterStats) : Outcome
deriving DecidableEq, Repr

/-- Lines 196-205: the test `aggStats.NumRequests == 0` with its early return,
then `avgThreadDur := aggStats.TotDuration / time.Duration(responders)` and
`avgReqTime := aggStats.TotDuration / time.Duration(aggStats.NumRequests)`. -/
def postMerge (st : LoopState) : Outcome :=
  if st.aggStats.NumRequests = 0 then Outcome.noStatistics
  else
    match goDiv st.aggStats.TotDuration st.responders with
    | none => Outcome.divideByZero
    | some avgThreadDur =>
        match goDiv st.aggStats.TotDuration st.aggStats.NumRequests with
        | none => Outcome.divideByZero
        | some avgReqTime => Outcome.report avgThreadDur avgReqTime st.aggStats

/-- Lines 177-205 of `main`: the aggregation loop from its initial state, then
the report.  `none` when the loop never leaves its `select`. -/
def aggregate (goroutines : Int) (events : List Event) : Option Outcome :=
  match aggLoop goroutines initState events with
  | none => none
  | some (st, _) => some (postMerge st)

/-! ## Session configuration (go-wrk.go, lines 131-163) -/

/-- A `net.IP`: the nil slice or a slice of bytes.  `net.IP{}` is `bytes []`;
`net.ParseIP` answers `nil` for a text that is no IP address. -/
inductive IP where
  | nil : IP
  | bytes (b : List Nat) : IP
deriving DecidableEq, Repr

/-- A `net.Addr` of an interface: a `*net.IPNet`, of which only the `IP` is
read, or a value of another type. -/
inductive Addr where
  | ipNet (ip : IP) : Addr
  | other : Addr
deriving DecidableEq, Repr

/-- The standard library and the host, which the sources call and do not
define: `net.ParseIP`, `net.IP.Equal`, and `net.Interfaces()` with the result
of `Addrs()` for each interface (an error is its message). -/
structure Host where
  parseIP : List Char → IP
  ipEqual : IP → IP → Bool
  interfaces : Except String (List (Except String (List Addr)))

/-- The inner loop of `util.CheckIPAvailable` (lines 120-129): is one of the
`*net.IPNet` addresses equal to `ip`? -/
def addrsMatch (host : Host) (ip : IP) : List Addr → Bool
  | [] => false
  | Addr.other :: rest => addrsMatch host ip rest
  | Addr.ipNet x :: rest => if host.ipEqual ip x then true else addrsMatch host ip rest

/-- The outer loop of `util.CheckIPAvailable` (lines 113-131). -/
def checkInterfaces (host : Host) (ip : IP) :
    List (Except String (List Addr)) → Except String Bool
  | [] => Except.ok false
  | Except.error err :: _ => Except.error err
  | Except.ok addrs :: rest =>
      if addrsMatch host ip addrs then Except.ok true else checkInterfaces host ip rest

/-- `util.CheckIPAvailable`. -/
def CheckIPAvailable (host : Host) (ip : IP) : Except String Bool :=
  match host.interfaces with
  | Except.error err => Except.error err
  | Except.ok interfaces => checkInterfaces host ip interfaces

/-- `strings.Split(s, ",")`. -/
def splitComma : List Char → List (List Char)
  | [] => [[]]
  | c :: cs =>
      if c = ',' then [] :: splitComma cs
      else
        match splitComma cs with
        | [] => [[c]]
        | field :: fields => (c :: field) :: fields

/-- `strings.Contains(s, substr)`. -/
def Contains (s substr : List Char) : Bool :=
  match s with
  | [] => substr.isEmpty
  | c :: cs => substr.isPrefixOf (c :: cs) || Contains cs substr

/-- The fatal configuration errors of lines 131-158, each printed before
`os.Exit(1)`. -/
inductive Fatal where
  | checkClientIP (s : List Char) (err : String) : Fatal
  | clientIPNotFound : Fatal
  | urlWithoutServerIP : Fatal
deriving DecidableEq, Repr

/-- Lines 134-146: the loop over the entries of `-mcp`. -/
def clientPool (host : Host) : List (List Char) → List IP → Except Fatal (List IP)
  | [], cips => Except.ok cips
  | s :: rest, cips =>
      match CheckIPAvailable host (host.parseIP s) with
      | Except.error err => Except.error (Fatal.checkClientIP s err)
      | Except.ok available =>
          if !available then Except.error Fatal.clientIPNotFound
          else clientPool host rest (cips ++ [host.parseIP s])

/-- Lines 155-157: the loop over the entries of `-msp`. -/
def serverPool (host : Host) : List (List Char) → List IP → List IP
  | [], sips => sips
  | s :: rest, sips => serverPool host rest (sips ++ [host.parseIP s])

/-- The value of an integer flag after `flag.Parse()`: the argument when the
flag is on the command line, the default of `flag.IntVar` otherwise. -/
def flagIntVar (dflt : Int) (arg : Option Int) : Int :=
  match arg with
  | none => dflt
  | some v => v

/-- Lines 159-161: `if timeoutms == 1000 { timeoutms = 1000 * duration }`. -/
def scaleTimeout (timeoutms duration : Int) : Int :=
  if timeoutms = 1000 then wrapInt64 (1000 * duration) else timeoutms

/-- The timeout `main` hands to `loader.NewLoadCfg`, from the `-T` argument
(line 54 declares the flag with default 1000) and the duration. -/
def sessionTimeout (argT : Option Int) (duration : Int) : Int :=
  scaleTimeout (flagIntVar 1000 argT) duration

/-- The arguments of `loader.NewLoadCfg` that lines 131-161 compute. -/
structure LoadSetup where
  testUrl : List Char
  timeoutms : Int
  cips : List IP
  sips : List IP
deriving DecidableEq, Repr

/-- Lines 131-163: the client pool, the server pool with its test of the URL,
and the timeout; an error is the process exiting before `NewLoadCfg`.  These
lines run for a non-empty `testUrl` only: lines 112-118 return before them for
an empty one and for the version and help flags. -/
def configure (host : Host) (clientIps serverIps testUrl : List Char)
    (argT : Option Int) (duration : Int) : Except Fatal LoadSetup :=
  match (if clientIps ≠ [] then clientPool host (splitComma clientIps) []
         else Except.ok []) with
  | Except.error e => Except.error e
  | Except.ok cips =>
      if serverIps ≠ [] then
        if !Contains testUrl "ServerIP".toList then Except.error Fatal.urlWithoutServerIP
        else
          Except.ok
            { testUrl := testUrl
              timeoutms := sessionTimeout argT duration
              cips := cips
              sips := serverPool host (splitComma serverIps) [] }
      else
        Except.ok
          { testUrl := testUrl
            timeoutms := sessionTimeout argT duration
            cips := cips
            sips := [] }

/-! ## Starting the workers (go-wrk.go, lines 165-175) -/

/-- The index expression `pool[idx]` of Go: `none` is the run-time panic for an
index out of range. -/
def goIndex (pool : List IP) (idx : Int) : Option IP :=
  if idx < 0 then none else pool[idx.toNat]?

/-- Lines 166-169 (and 170-173): `c := net.IP{}` and, for a non-empty pool,
`c = cips[i%len(cips)]`.  Go's `%` is the remainder of truncated division. -/
def pickIP (pool : List IP) (i : Int) : Option IP :=
  if pool.length ≠ 0 then goIndex pool (Int.tmod i pool.length)
  else some (IP.bytes [])

/-- The body of the `for` loop of line 165 from index `i`, for `n` more
iterations: the pair of addresses each started worker is given.  `i++` is
exact, since `i < goroutines` before it. -/
def spawnFrom (cips sips : List IP) (i : Int) : Nat → Option (List (IP × IP))
  | 0 => some []
  | n + 1 =>
      match pickIP cips i, pickIP sips i with
      | some c, some s =>
          match spawnFrom cips sips (i + 1) n with
          | some workers => some ((c, s) :: workers)
          | none => none
      | _, _ => none

/-- Lines 165-175: `for i := 0; i < goroutines; i++`, which runs
`goroutines` times when that is positive and not at all otherwise. -/
def spawnWorkers (goroutines : Int) (cips sips : List IP) : Option (List (IP × IP)) :=
  spawnFrom cips sips 0 goroutines.toNat

/-- Lines 131-175: configuration, then the workers started with their
addresses (`none` for a panic while starting them). -/
def startSession (host : Host) (clientIps serverIps testUrl : List Char)
    (argT : Option Int) (duration goroutines : Int) :
    Except Fatal (LoadSetup × Option (List (IP × IP))) :=
  match configure host clientIps serverIps testUrl argT duration with
  | Except.error e => Except.error e
  | Except.ok setup => Except.ok (setup, spawnWorkers goroutines setup.cips setup.sips)

/-! ## Sample inputs -/

/-- A worker that completed two requests and failed one. -/
def sampleFast : RequesterStats :=
  { TotRespSize := 100, TotDuration := 30, MinRequestTime := 10,
    MaxRequestTime := 20, NumRequests := 2, NumErrs := 1 }

/-- A second worker with two completed requests. -/
def sampleSlow : RequesterStats :=
  { TotRespSize := 50, TotDuration := 40, MinRequestTime := 5,
    MaxRequestTime := 35, NumRequests := 2, NumErrs := 0 }

/-- A worker all of whose requests failed: the record it starts from, with
its errors counted. -/
def sampleIdle : RequesterStats :=
  { TotRespSize := 0, TotDuration := 0, MinRequestTime := 60000000000,
    MaxRequestTime := 0, NumRequests := 0, NumErrs := 7 }

/-- Two results with an interrupt between them. -/
def sampleRun : List Event :=
  [Event.result sampleFast, Event.interrupt, Event.result sampleSlow]

/-- The results of `sampleRun` in the other order, the interrupt last. -/
def sampleRunSwapped : List Event :=
  [Event.result sampleSlow, Event.result sampleFast, Event.interrupt]

/-- Two workers without a completed request, an interrupt between them. -/
def sampleIdleRun : List Event :=
  [Event.result sampleIdle, Event.interrupt, Event.result sampleIdle]

/-- A worker without a completed request, then one with two. -/
def sampleMixedRun : List Event :=
  [Event.result sampleIdle, Event.result sampleFast]

/-- A host without interfaces whose `net.ParseIP` rejects every text. -/
def sampleHost : Host :=
  { parseIP := fun _ => IP.nil
    ipEqual := fun _ _ => false
    interfaces := Except.ok [] }

/-- The bytes of a `net.IP`; the nil slice has none. -/
def ipBytes : IP → List Nat
  | IP.nil => []
  | IP.bytes b => b

/-- The first twelve bytes of an IPv4 address in its 16-byte form. -/
def v4InV6Start : List Nat := [0, 0, 0, 0, 0, 0, 0, 0, 0, 0, 255, 255]

/-- The comparison `net.IP.Equal` of the Go library: equal bytes for equal
lengths, and a 4-byte address equals its 16-byte form. -/
def libraryIPEqual (a b : IP) : Bool :=
  if (ipBytes a).length = (ipBytes b).length then decide (ipBytes a = ipBytes b)
  else if (ipBytes a).length = 4 ∧ (ipBytes b).length = 16 then
    decide ((ipBytes b).take 12 = v4InV6Start) && decide (ipBytes a = (ipBytes b).drop 12)
  else if (ipBytes a).length = 16 ∧ (ipBytes b).length = 4 then
    decide ((ipBytes a).take 12 = v4InV6Start) && decide ((ipBytes a).drop 12 = ipBytes b)
  else false

/-- A host with one interface that holds the loopback address in its 4-byte
form, whose `net.ParseIP` knows that address only and answers, as the library
does, its 16-byte form. -/
def sampleLoopbackHost : Host :=
  { parseIP := fun s =>
      if s = "127.0.0.1".toList then
        IP.bytes [0, 0, 0, 0, 0, 0, 0, 0, 0, 0, 255, 255, 127, 0, 0, 1]
      else IP.nil
    ipEqual := libraryIPEqual
    interfaces := Except.ok [Except.ok [Addr.other, Addr.ipNet (IP.bytes [127, 0, 0, 1])]] }

end GoWrk

namespace GoWrk

/-! ## Lemmas on machine integers and on the two helpers -/

theorem wrapInt64_idem (x : Int) : wrapInt64 (wrapInt64 x) = wrapInt64 x := by
  unfold wrapInt64
  omega

theorem wrapInt64_add_left (a b : Int) : wrapInt64 (wrapInt64 a + b) = wrapInt64 (a + b) := by
  unfold wrapInt64
  omega

theorem wrapInt64_of_fits (x : Int) (hlo : -2 ^ 63 ≤ x) (hhi : x < 2 ^ 63) :
    wrapInt64 x = x := by
  unfold wrapInt64
  omega

theorem wrapInt64_fits (x : Int) : -2 ^ 63 ≤ wrapInt64 x ∧ wrapInt64 x < 2 ^ 63 := by
  unfold wrapInt64
  omega

theorem MaxDuration_eq_max (a b : Int) : MaxDuration a b = max a b := by
  unfold MaxDuration
  split <;> omega

theorem MinDuration_eq_min (a b : Int) : MinDuration a b = min a b := by
  unfold MinDuration
  split <;> omega

/-! ## Lemmas on the merge of a list of results -/

theorem foldl_merge_sum (f : RequesterStats → Int)
    (hf : ∀ a w, f (mergeStats a w) = wrapInt64 (f a + f w))
    (ws : List RequesterStats) (a : RequesterStats) (ha : wrapInt64 (f a) = f a) :
    f (ws.foldl mergeStats a) = wrapInt64 (f a + (ws.map f).sum) := by
  induction ws generalizing a with
  | nil => simpa using ha.symm
  | cons w ws ih =>
      have h1 : wrapInt64 (f (mergeStats a w)) = f (mergeStats a w) := by
        rw [hf, wrapInt64_idem]
      rw [List.foldl_cons, ih (mergeStats a w) h1, hf, wrapInt64_add_left]
      simp [add_assoc]

theorem foldl_merge_max (ws : List RequesterStats) (a : RequesterStats) :
    a.MaxRequestTime ≤ (ws.foldl mergeStats a).MaxRequestTime ∧
    (∀ w ∈ ws, w.MaxRequestTime ≤ (ws.foldl mergeStats a).MaxRequestTime) ∧
    ((ws.foldl mergeStats a).MaxRequestTime = a.MaxRequestTime ∨
      ∃ w ∈ ws, (ws.foldl mergeStats a).MaxRequestTime = w.MaxRequestTime) := by
  induction ws generalizing a with
  | nil => simp
  | cons w ws ih =>
      obtain ⟨h1, h2, h3⟩ := ih (mergeStats a w)
      have hm : (mergeStats a w).MaxRequestTime = max a.MaxRequestTime w.MaxRequestTime :=
        MaxDuration_eq_max _ _
      rw [hm] at h1 h3
      refine ⟨?_, ?_, ?_⟩
      · rw [List.foldl_cons]; omega
      · intro x hx
        rw [List.foldl_cons]
        rcases List.mem_cons.mp hx with rfl | hx
        · omega
        · exact h2 x hx
      · rw [List.foldl_cons]
        rcases h3 with h3 | ⟨x, hx, h3⟩
        · rcases le_total a.MaxRequestTime w.MaxRequestTime with h | h
          · right
            exact ⟨w, List.mem_cons_self _ _, by rw [h3]; exact max_eq_right h⟩
          · left
            rw [h3]; exact max_eq_left h
        · right
          exact ⟨x, List.mem_cons_of_mem _ hx, h3⟩

theorem foldl_merge_min (ws : List RequesterStats) (a : RequesterStats) :
    (ws.foldl mergeStats a).MinRequestTime ≤ a.MinRequestTime ∧
    (∀ w ∈ ws, (ws.foldl mergeStats a).MinRequestTime ≤ w.MinRequestTime) ∧
    ((ws.foldl mergeStats a).MinRequestTime = a.MinRequestTime ∨
      ∃ w ∈ ws, (ws.foldl mergeStats a).MinRequestTime = w.MinRequestTime) := by
  induction ws generalizing a with
  | nil => simp
  | cons w ws ih =>
      obtain ⟨h1, h2, h3⟩ := ih (mergeStats a w)
      have hm : (mergeStats a w).MinRequestTime = min a.MinRequestTime w.MinRequestTime :=
        MinDuration_eq_min _ _
      rw [hm] at h1 h3
      refine ⟨?_, ?_, ?_⟩
      · rw [List.foldl_cons]; omega
      · intro x hx
        rw [List.foldl_cons]
        rcases List.mem_cons.mp hx with rfl | hx
        · omega
        · exact h2 x hx
      · rw [List.foldl_cons]
        rcases h3 with h3 | ⟨x, hx, h3⟩
        · rcases le_total a.MinRequestTime w.MinRequestTime with h | h
          · left
            rw [h3]; exact min_eq_left h
          · right
            exact ⟨w, List.mem_cons_self _ _, by rw [h3]; exact min_eq_right h⟩
        · right
          exact ⟨x, List.mem_cons_of_mem _ hx, h3⟩

theorem mergeStats_right_comm (a x y : RequesterStats) :
    mergeStats (mergeStats a x) y = mergeStats (mergeStats a y) x := by
  simp only [mergeStats, wrapInt64_add_left, MaxDuration_eq_max, MinDuration_eq_min,
    RequesterStats.mk.injEq]
  refine ⟨?_, ?_, ?_, ?_, ?_, ?_⟩
  · congr 1; ring
  · congr 1; ring
  · omega
  · omega
  · congr 1; ring
  · congr 1; ring

theorem foldl_merge_perm {ws1 ws2 : List RequesterStats} (h : ws1.Perm ws2)
    (a : RequesterStats) : ws1.foldl mergeStats a = ws2.foldl mergeStats a := by
  induction h generalizing a with
  | nil => rfl
  | cons x _ ih => simp only [List.foldl_cons]; exact ih _
  | swap x y l => simp only [List.foldl_cons]; rw [mergeStats_right_comm]
  | trans _ _ ih1 ih2 => exact (ih1 a).trans (ih2 a)

/-! ## Lemmas on the aggregation loop -/

theorem workerResults_append (xs ys : List Event) :
    workerResults (xs ++ ys) = workerResults xs ++ workerResults ys := by
  induction xs with
  | nil => rfl
  | cons e xs ih => cases e <;> simp [workerResults, ih]

theorem interruptCount_append (xs ys : List Event) :
    interruptCount (xs ++ ys) = interruptCount xs + interruptCount ys := by
  induction xs with
  | nil => simp [interruptCount]
  | cons e xs ih =>
      cases e
      · simp [interruptCount, ih]; omega
      · simp [interruptCount, ih]

/-- The loop on a stream that holds the `n` results it still waits for: it
consumes a prefix that ends with the `n`-th of them and merges, in order, the
results of that prefix. -/
theorem aggLoop_run (goroutines : Int) (n : Nat) (evs : List Event) (st : LoopState)
    (hn : st.responders + n = goroutines) (hlen : n ≤ (workerResults evs).length) :
    ∃ pre rest, evs = pre ++ rest ∧
      workerResults pre = (workerResults evs).take n ∧
      (pre = [] ∨ ∃ p r, pre = p ++ [Event.result r]) ∧
      aggLoop goroutines st evs =
        some ({ responders := goroutines
                aggStats := (workerResults pre).foldl mergeStats st.aggStats
                stopCalls := st.stopCalls + interruptCount pre }, rest) := by
  induction evs generalizing st n with
  | nil =>
      have h0 : n = 0 := by simpa [workerResults] using hlen
      subst h0
      refine ⟨[], [], rfl, by simp [workerResults], Or.inl rfl, ?_⟩
      have : ¬ st.responders < goroutines := by omega
      have hr : st.responders = goroutines := by omega
      simp [aggLoop, this, workerResults, interruptCount, ← hr]
  | cons e evs ih =>
      cases n with
      | zero =>
          refine ⟨[], e :: evs, rfl, by simp [workerResults], Or.inl rfl, ?_⟩
          have : ¬ st.responders < goroutines := by omega
          have hr : st.responders = goroutines := by omega
          simp [aggLoop, this, workerResults, interruptCount, ← hr]
      | succ n =>
          have hlt : st.responders < goroutines := by omega
          cases e with
          | interrupt =>
              obtain ⟨pre, rest, h1, h2, h3, h4⟩ :=
                ih (n + 1) (selectStep st Event.interrupt)
                  (by simpa [selectStep] using hn) (by simpa [workerResults] using hlen)
              refine ⟨Event.interrupt :: pre, rest, by simp [h1], ?_, ?_, ?_⟩
              · simpa [workerResults] using h2
              · right
                rcases h3 with rfl | ⟨p, r, rfl⟩
                · exfalso
                  have hl : n + 1 ≤ (workerResults evs).length := by
                    simpa [workerResults] using hlen
                  have := congrArg List.length h2
                  simp [workerResults] at this
                  omega
                · exact ⟨Event.interrupt :: p, r, rfl⟩
              · simp only [aggLoop, hlt, if_true, h4]
                simp [selectStep, workerResults, interruptCount]
                omega
          | result w =>
              obtain ⟨pre, rest, h1, h2, h3, h4⟩ :=
                ih n (selectStep st (Event.result w))
                  (by simp only [selectStep]; push_cast at hn; omega)
                  (by simpa [workerResults] using hlen)
              refine ⟨Event.result w :: pre, rest, by simp [h1], ?_, ?_, ?_⟩
              · simp [workerResults, h2]
              · right
                rcases h3 with rfl | ⟨p, r, rfl⟩
                · exact ⟨[], w, rfl⟩
                · exact ⟨Event.result w :: p, r, rfl⟩
              · simp only [aggLoop, hlt, if_true, h4]
                simp [selectStep, workerResults, interruptCount]

theorem aggLoop_exit_now (goroutines : Int) (st : LoopState) (evs : List Event)
    (h : ¬ st.responders < goroutines) : aggLoop goroutines st evs = some (st, evs) := by
  cases evs <;> simp [aggLoop, h]

/-- The loop from its initial state on a stream that holds at least
`goroutines` results: it exits, having merged the first `goroutines` results
in arrival order. -/
theorem aggLoop_total (goroutines : Int) (evs : List Event)
    (hlen : goroutines ≤ (workerResults evs).length) :
    ∃ st rest, aggLoop goroutines initState evs = some (st, rest) ∧
      st.aggStats =
        ((workerResults evs).take goroutines.toNat).foldl mergeStats initState.aggStats ∧
      (0 ≤ goroutines → st.responders = goroutines) ∧
      (goroutines ≤ 0 → st.responders = 0) := by
  by_cases hg : goroutines ≤ 0
  · refine ⟨initState, evs, aggLoop_exit_now _ _ _ (by simp [initState]; omega), ?_, ?_, ?_⟩
    · have : goroutines.toNat = 0 := by omega
      simp [this]
    · intro h0
      have : goroutines = 0 := by omega
      simp [initState, this]
    · intro _
      rfl
  · obtain ⟨pre, rest, _, h2, _, h4⟩ :=
      aggLoop_run goroutines goroutines.toNat evs initState
        (by simp [initState]; omega) (by omega)
    refine ⟨_, rest, h4, ?_, ?_, ?_⟩
    · simp [h2]
    · intro _
      rfl
    · intro h0
      omega

theorem foldl_merge_numRequests (ws : List RequesterStats) :
    (ws.foldl mergeStats initState.aggStats).NumRequests =
      wrapInt64 (ws.map RequesterStats.NumRequests).sum := by
  simpa [initState] using
    foldl_merge_sum RequesterStats.NumRequests (fun _ _ => rfl) ws initState.aggStats
      (by decide)

theorem foldl_merge_totDuration_fits (ws : List RequesterStats) :
    -2 ^ 63 ≤ (ws.foldl mergeStats initState.aggStats).TotDuration ∧
    (ws.foldl mergeStats initState.aggStats).TotDuration < 2 ^ 63 := by
  have h := foldl_merge_sum RequesterStats.TotDuration (fun _ _ => rfl) ws
    initState.aggStats (by decide)
  rw [h]
  exact wrapInt64_fits _

theorem sum_numRequests_zero (ws : List RequesterStats)
    (hz : ∀ w ∈ ws, w.NumRequests = 0) : (ws.map RequesterStats.NumRequests).sum = 0 := by
  induction ws with
  | nil => rfl
  | cons w ws ih =>
      simp only [List.map_cons, List.sum_cons]
      rw [hz w (List.mem_cons_self _ _), ih (fun x hx => hz x (List.mem_cons_of_mem _ hx))]
      rfl

/-- The quotient of Go's division fits in `int64` except for
`math.MinInt64 / -1`. -/
theorem tdiv_fits (a b : Int) (hlo : -2 ^ 63 ≤ a) (hhi : a < 2 ^ 63) (hb : b ≠ 0)
    (hcorner : b = -1 → a ≠ -2 ^ 63) :
    wrapInt64 (Int.tdiv a b) = Int.tdiv a b := by
  apply wrapInt64_of_fits
  all_goals
    have hq := Int.natAbs_tdiv a b
    by_cases h1 : b = 1
    · subst h1
      simp only [Int.tdiv_one]
      omega
    by_cases h2 : b = -1
    · subst h2
      have hc := hcorner rfl
      have : Int.tdiv a (-1) = -a := by
        rw [show (-1 : Int) = -(1 : Int) from rfl, Int.tdiv_neg, Int.tdiv_one]
      rw [this]
      omega
    have hb2 : 2 ≤ b.natAbs := by omega
    have hle : a.natAbs.div b.natAbs ≤ a.natAbs / 2 :=
      Nat.div_le_div_left hb2 (by decide)
    omega

/-! ## Lemmas on the start of the workers -/

theorem pickIP_empty (i : Int) : pickIP [] i = some (IP.bytes []) := rfl

theorem pickIP_nonempty (pool : List IP) (hne : pool ≠ []) (k : Nat) :
    k % pool.length < pool.length ∧ pickIP pool k = pool[k % pool.length]? := by
  have hlen : 0 < pool.length := List.length_pos.mpr hne
  refine ⟨Nat.mod_lt _ hlen, ?_⟩
  have h0 : pool.length ≠ 0 := by omega
  have hneg : ¬ ((k % pool.length : Nat) : Int) < 0 := by omega
  simp only [pickIP, h0, ne_eq, not_false_eq_true, if_true, ← Int.ofNat_tmod, goIndex, hneg,
    if_false, Int.toNat_ofNat]

theorem pickIP_isSome (pool : List IP) (k : Nat) : ∃ c, pickIP pool k = some c := by
  by_cases hne : pool = []
  · subst hne
    exact ⟨_, rfl⟩
  · obtain ⟨hlt, hpick⟩ := pickIP_nonempty pool hne k
    exact ⟨pool[k % pool.length], by rw [hpick, List.getElem?_eq_getElem hlt]⟩

theorem spawnFrom_spec (cips sips : List IP) (n : Nat) (i : Nat) :
    ∃ workers, spawnFrom cips sips i n = some workers ∧ workers.length = n ∧
      ∀ j, j < n → ∃ c s, workers[j]? = some (c, s) ∧
        pickIP cips ((i + j : Nat) : Int) = some c ∧
        pickIP sips ((i + j : Nat) : Int) = some s := by
  induction n generalizing i with
  | zero => exact ⟨[], rfl, rfl, fun j hj => absurd hj (Nat.not_lt_zero j)⟩
  | succ n ih =>
      obtain ⟨c, hc⟩ := pickIP_isSome cips i
      obtain ⟨s, hs⟩ := pickIP_isSome sips i
      obtain ⟨workers, hrun, hlen, hall⟩ := ih (i + 1)
      have hrun1 : spawnFrom cips sips ((i : Int) + 1) n = some workers := by
        simpa using hrun
      refine ⟨(c, s) :: workers, ?_, by simp [hlen], ?_⟩
      · simp only [spawnFrom, hc, hs, hrun1]
      · intro j hj
        cases j with
        | zero => exact ⟨c, s, by simp, by simpa using hc, by simpa using hs⟩
        | succ j =>
            obtain ⟨c1, s1, h1, h2, h3⟩ := hall j (by omega)
            refine ⟨c1, s1, by simpa using h1, ?_, ?_⟩
            · rw [show i + (j + 1) = i + 1 + j by omega]; exact h2
            · rw [show i + (j + 1) = i + 1 + j by omega]; exact h3

/-! ## Lemmas on the client pool -/

theorem addrsMatch_nil (host : Host) (addrs : List Addr)
    (hnil : ∀ x, Addr.ipNet x ∈ addrs → host.ipEqual IP.nil x = false) :
    addrsMatch host IP.nil addrs = false := by
  induction addrs with
  | nil => rfl
  | cons a addrs ih =>
      have ih1 := ih (fun x hx => hnil x (List.mem_cons_of_mem _ hx))
      cases a with
      | other => simpa [addrsMatch] using ih1
      | ipNet x => simp [addrsMatch, hnil x (List.mem_cons_self _ _), ih1]

theorem checkInterfaces_nil (host : Host) (interfaces : List (Except String (List Addr)))
    (hnil : ∀ addrs, Except.ok addrs ∈ interfaces →
      ∀ x, Addr.ipNet x ∈ addrs → host.ipEqual IP.nil x = false) :
    checkInterfaces host IP.nil interfaces ≠ Except.ok true := by
  induction interfaces with
  | nil => simp [checkInterfaces]
  | cons a interfaces ih =>
      have ih1 := ih (fun addrs h => hnil addrs (List.mem_cons_of_mem _ h))
      cases a with
      | error err => simp [checkInterfaces]
      | ok addrs =>
          have h0 := addrsMatch_nil host addrs (hnil addrs (List.mem_cons_self _ _))
          simpa [checkInterfaces, h0] using ih1

theorem CheckIPAvailable_nil (host : Host)
    (hnil : ∀ interfaces, host.interfaces = Except.ok interfaces →
      ∀ addrs, Except.ok addrs ∈ interfaces →
        ∀ x, Addr.ipNet x ∈ addrs → host.ipEqual IP.nil x = false) :
    CheckIPAvailable host IP.nil ≠ Except.ok true := by
  unfold CheckIPAvailable
  split
  · simp
  · rename_i interfaces hi
    exact checkInterfaces_nil host interfaces (hnil interfaces hi)

/-- The client path of lines 134-146 never lets a nil address into the pool,
on a host where `net.IP.Equal` tells nil from every address of an interface:
the availability test fails for it and the process exits. -/
theorem clientPool_no_nil (host : Host)
    (hnil : ∀ interfaces, host.interfaces = Except.ok interfaces →
      ∀ addrs, Except.ok addrs ∈ interfaces →
        ∀ x, Addr.ipNet x ∈ addrs → host.ipEqual IP.nil x = false)
    (entries : List (List Char)) (cips pool : List IP) (hacc : IP.nil ∉ cips)
    (h : clientPool host entries cips = Except.ok pool) : IP.nil ∉ pool := by
  induction entries generalizing cips with
  | nil =>
      simp only [clientPool] at h
      cases h
      exact hacc
  | cons s entries ih =>
      simp only [clientPool] at h
      split at h
      · exact absurd h (by simp)
      · rename_i available hav
        split at h
        · exact absurd h (by simp)
        · rename_i hava
          have htrue : available = true := by simpa using hava
          subst htrue
          refine ih (cips ++ [host.parseIP s]) ?_ h
          intro hmem
          rcases List.mem_append.mp hmem with hm | hm
          · exact hacc hm
          · have hp : host.parseIP s = IP.nil := (List.mem_singleton.mp hm).symm
            rw [hp] at hav
            exact CheckIPAvailable_nil host hnil hav

/-! ## The merge of the aggregation loop -/

/-- The merge on arbitrary records.  When the loop runs with concurrency
`goroutines` on a stream that holds at least that many results, it exits, and
for `ws` the results it consumed the four counters of the aggregate are the
sums of the workers' fields wrapped to `int64`, `MaxRequestTime` is the
maximum of the seed 0 and the workers' values, and `MinRequestTime` is the
minimum of the seed `time.Minute` and the workers' values. -/
theorem aggLoop_merges_wrapped (goroutines : Nat) (evs : List Event)
    (hlen : goroutines ≤ (workerResults evs).length) :
    ∃ st rest, aggLoop goroutines initState evs = some (st, rest) ∧
      ∀ ws, ws = (workerResults evs).take goroutines →
        st.aggStats.NumErrs = wrapInt64 (ws.map RequesterStats.NumErrs).sum ∧
        st.aggStats.NumRequests = wrapInt64 (ws.map RequesterStats.NumRequests).sum ∧
        st.aggStats.TotRespSize = wrapInt64 (ws.map RequesterStats.TotRespSize).sum ∧
        st.aggStats.TotDuration = wrapInt64 (ws.map RequesterStats.TotDuration).sum ∧
        (0 ≤ st.aggStats.MaxRequestTime ∧
          (∀ w ∈ ws, w.MaxRequestTime ≤ st.aggStats.MaxRequestTime) ∧
          (st.aggStats.MaxRequestTime = 0 ∨
            ∃ w ∈ ws, st.aggStats.MaxRequestTime = w.MaxRequestTime)) ∧
        (st.aggStats.MinRequestTime ≤ timeMinute ∧
          (∀ w ∈ ws, st.aggStats.MinRequestTime ≤ w.MinRequestTime) ∧
          (st.aggStats.MinRequestTime = timeMinute ∨
            ∃ w ∈ ws, st.aggStats.MinRequestTime = w.MinRequestTime)) ∧
        (∀ x : Int, -2 ^ 63 ≤ x → x < 2 ^ 63 → wrapInt64 x = x) := by
  obtain ⟨st, rest, hrun, hagg, _, _⟩ :=
    aggLoop_total goroutines evs (by exact_mod_cast hlen)
  refine ⟨st, rest, hrun, ?_⟩
  intro ws hws
  rw [Int.toNat_ofNat, ← hws] at hagg
  rw [hagg]
  have hz : wrapInt64 0 = 0 := by decide
  refine ⟨?_, ?_, ?_, ?_, ?_, ?_, wrapInt64_of_fits⟩
  · simpa [initState] using
      foldl_merge_sum RequesterStats.NumErrs (fun _ _ => rfl) ws initState.aggStats hz
  · simpa [initState] using
      foldl_merge_sum RequesterStats.NumRequests (fun _ _ => rfl) ws initState.aggStats hz
  · simpa [initState] using
      foldl_merge_sum RequesterStats.TotRespSize (fun _ _ => rfl) ws initState.aggStats hz
  · simpa [initState] using
      foldl_merge_sum RequesterStats.TotDuration (fun _ _ => rfl) ws initState.aggStats hz
  · exact foldl_merge_max ws initState.aggStats
  · exact foldl_merge_min ws initState.aggStats

/-- C1: for every non-empty list `ws` of worker records that the loop
consumes (the first `ws.length` results of the stream, the concurrency being
`ws.length`), each a record a worker emits and with totals that are `int64`
values, the loop exits with an aggregate whose `NumErrs`, `NumRequests`,
`TotRespSize` and `TotDuration` are the sums of the workers' fields, whose
`MaxRequestTime` is the maximum of the workers' `MaxRequestTime` (the value of
one of them and at least each of them) and whose `MinRequestTime` is the
minimum of the workers' `MinRequestTime`. -/
theorem aggLoop_merges_worker_records (ws : List RequesterStats) (evs : List Event)
    (hne : ws ≠ [])
    (hcons : (workerResults evs).take ws.length = ws)
    (hrec : ∀ w ∈ ws, workerRecord w)
    (hErrs : fitsInt64 (ws.map RequesterStats.NumErrs).sum)
    (hReqs : fitsInt64 (ws.map RequesterStats.NumRequests).sum)
    (hSize : fitsInt64 (ws.map RequesterStats.TotRespSize).sum)
    (hDur : fitsInt64 (ws.map RequesterStats.TotDuration).sum) :
    ∃ st rest, aggLoop ws.length initState evs = some (st, rest) ∧
      st.aggStats.NumErrs = (ws.map RequesterStats.NumErrs).sum ∧
      st.aggStats.NumRequests = (ws.map RequesterStats.NumRequests).sum ∧
      st.aggStats.TotRespSize = (ws.map RequesterStats.TotRespSize).sum ∧
      st.aggStats.TotDuration = (ws.map RequesterStats.TotDuration).sum ∧
      ((∃ w ∈ ws, st.aggStats.MaxRequestTime = w.MaxRequestTime) ∧
        ∀ w ∈ ws, w.MaxRequestTime ≤ st.aggStats.MaxRequestTime) ∧
      ((∃ w ∈ ws, st.aggStats.MinRequestTime = w.MinRequestTime) ∧
        ∀ w ∈ ws, st.aggStats.MinRequestTime ≤ w.MinRequestTime) := by
  have hlen : ws.length ≤ (workerResults evs).length := by
    have := congrArg List.length hcons
    rw [List.length_take] at this
    omega
  obtain ⟨st, rest, hrun, hall⟩ := aggLoop_merges_wrapped ws.length evs hlen
  obtain ⟨h1, h2, h3, h4, ⟨hmax0, hmaxub, hmaxmem⟩, ⟨hmin0, hminlb, hminmem⟩, _⟩ :=
    hall ws hcons.symm
  obtain ⟨w0, ws0, rfl⟩ := List.exists_cons_of_ne_nil hne
  have hw0 : w0 ∈ w0 :: ws0 := List.mem_cons_self _ _
  refine ⟨st, rest, hrun, ?_, ?_, ?_, ?_, ⟨?_, hmaxub⟩, ⟨?_, hminlb⟩⟩
  · rw [h1]; exact wrapInt64_of_fits _ hErrs.1 hErrs.2
  · rw [h2]; exact wrapInt64_of_fits _ hReqs.1 hReqs.2
  · rw [h3]; exact wrapInt64_of_fits _ hSize.1 hSize.2
  · rw [h4]; exact wrapInt64_of_fits _ hDur.1 hDur.2
  · rcases hmaxmem with h0 | hmem
    · refine ⟨w0, hw0, ?_⟩
      have hub := hmaxub w0 hw0
      have hnn := (hrec w0 hw0).2
      omega
    · exact hmem
  · rcases hminmem with h0 | hmem
    · refine ⟨w0, hw0, ?_⟩
      have hlb := hminlb w0 hw0
      have hle := (hrec w0 hw0).1
      omega
    · exact hmem

/-- An instance of `aggLoop_merges_worker_records`: the two results of
`sampleRun`, an interrupt arriving between them, concurrency 2. -/
theorem aggLoop_merges_worker_records_witness :
    [sampleFast, sampleSlow] ≠ [] ∧
    (workerResults sampleRun).take [sampleFast, sampleSlow].length =
      [sampleFast, sampleSlow] ∧
    (∀ w ∈ [sampleFast, sampleSlow], workerRecord w) ∧
    fitsInt64 ([sampleFast, sampleSlow].map RequesterStats.NumErrs).sum ∧
    fitsInt64 ([sampleFast, sampleSlow].map RequesterStats.NumRequests).sum ∧
    fitsInt64 ([sampleFast, sampleSlow].map RequesterStats.TotRespSize).sum ∧
    fitsInt64 ([sampleFast, sampleSlow].map RequesterStats.TotDuration).sum ∧
    ∃ st rest, aggLoop [sampleFast, sampleSlow].length initState sampleRun =
        some (st, rest) ∧
      st.aggStats.NumErrs = 1 ∧ st.aggStats.NumRequests = 4 ∧
      st.aggStats.TotRespSize = 150 ∧ st.aggStats.TotDuration = 70 ∧
      st.aggStats.MaxRequestTime = 35 ∧ st.aggStats.MinRequestTime = 5 := by
  refine ⟨by decide, by decide, by decide, by decide, by decide, by decide, by decide, ?_⟩
  obtain ⟨st, rest, hrun, h1, h2, h3, h4, ⟨hmaxmem, hmaxub⟩, ⟨hminmem, hminlb⟩⟩ :=
    aggLoop_merges_worker_records [sampleFast, sampleSlow] sampleRun
      (by decide) (by decide) (by decide) (by decide) (by decide) (by decide) (by decide)
  refine ⟨st, rest, hrun, by rw [h1]; decide, by rw [h2]; decide, by rw [h3]; decide,
    by rw [h4]; decide, ?_, ?_⟩
  · have hub := hmaxub sampleSlow (by decide)
    obtain ⟨w, hw, hmax⟩ := hmaxmem
    have hslow : sampleSlow.MaxRequestTime = 35 := rfl
    have hfast : sampleFast.MaxRequestTime = 20 := rfl
    simp only [List.mem_cons, List.mem_singleton, List.not_mem_nil, or_false] at hw
    rcases hw with rfl | rfl <;> omega
  · have hlb := hminlb sampleSlow (by decide)
    obtain ⟨w, hw, hmin⟩ := hminmem
    have hslow : sampleSlow.MinRequestTime = 5 := rfl
    have hfast : sampleFast.MinRequestTime = 10 := rfl
    simp only [List.mem_cons, List.mem_singleton, List.not_mem_nil, or_false] at hw
    rcases hw with rfl | rfl <;> omega

/-- C2: the merge does not depend on the order of arrival.  For two event
streams whose worker results are permutations of each other (interrupts may
be interleaved anywhere), the loop run with concurrency equal to the number
of results exits on both with the same aggregate, all six fields equal, and
the same responder count, hence the same report. -/
theorem aggLoop_order_independent (evs1 evs2 : List Event)
    (hperm : (workerResults evs1).Perm (workerResults evs2)) :
    ∃ st1 rest1 st2 rest2,
      aggLoop (workerResults evs1).length initState evs1 = some (st1, rest1) ∧
      aggLoop (workerResults evs1).length initState evs2 = some (st2, rest2) ∧
      st1.aggStats = st2.aggStats ∧ st1.responders = st2.responders ∧
      aggregate (workerResults evs1).length evs1 =
        aggregate (workerResults evs1).length evs2 := by
  obtain ⟨st1, rest1, hrun1, hagg1, hr1, _⟩ :=
    aggLoop_total (workerResults evs1).length evs1 le_rfl
  obtain ⟨st2, rest2, hrun2, hagg2, hr2, _⟩ :=
    aggLoop_total (workerResults evs1).length evs2 (by rw [hperm.length_eq])
  have hagg : st1.aggStats = st2.aggStats := by
    rw [hagg1, hagg2, Int.toNat_ofNat, List.take_length, hperm.length_eq, List.take_length]
    exact foldl_merge_perm hperm _
  have hresp : st1.responders = st2.responders := by
    rw [hr1 (by omega), hr2 (by omega)]
  refine ⟨st1, rest1, st2, rest2, hrun1, hrun2, hagg, hresp, ?_⟩
  simp only [aggregate, hrun1, hrun2, postMerge, hagg, hresp]

/-- An instance of `aggLoop_order_independent`: `sampleRun` and
`sampleRunSwapped`. -/
theorem aggLoop_order_independent_witness :
    (workerResults sampleRun).Perm (workerResults sampleRunSwapped) ∧
    aggregate (workerResults sampleRun).length sampleRun =
      aggregate (workerResults sampleRun).length sampleRunSwapped := by
  have hperm : (workerResults sampleRun).Perm (workerResults sampleRunSwapped) :=
    List.Perm.swap sampleSlow sampleFast []
  obtain ⟨_, _, _, _, _, _, _, _, h⟩ :=
    aggLoop_order_independent sampleRun sampleRunSwapped hperm
  exact ⟨hperm, h⟩

/-! ## Exit of the aggregation loop -/

/-- C3: for every concurrency `C ≥ 1` and every event stream with at least
`C` worker results, the loop exits exactly after the `C`-th result: the stream
splits as `pre ++ result r :: rest` with `C - 1` results in `pre`, the loop
returns `rest` unconsumed, the responder count is `C`, the aggregate is the
merge, once each and in order, of the first `C` results, and `Stop` was called
once per interrupt of `pre`.  An interrupt leaves the responder count and the
aggregate as they are. -/
theorem aggLoop_exits_after_last_result (C : Int) (hC : 1 ≤ C) (evs : List Event)
    (hlen : C ≤ (workerResults evs).length) :
    (∀ st : LoopState,
      (selectStep st Event.interrupt).responders = st.responders ∧
      (selectStep st Event.interrupt).aggStats = st.aggStats) ∧
    ∃ pre r rest st,
      evs = pre ++ Event.result r :: rest ∧
      ((workerResults pre).length : Int) + 1 = C ∧
      workerResults pre ++ [r] = (workerResults evs).take C.toNat ∧
      aggLoop C initState evs = some (st, rest) ∧
      st.responders = C ∧
      st.aggStats = (workerResults pre ++ [r]).foldl mergeStats initState.aggStats ∧
      st.stopCalls = interruptCount pre := by
  refine ⟨fun st => ⟨rfl, rfl⟩, ?_⟩
  obtain ⟨pre, rest, h1, h2, h3, h4⟩ :=
    aggLoop_run C C.toNat evs initState (by simp [initState]; omega) (by omega)
  have hlenpre : (workerResults pre).length = C.toNat := by
    rw [h2, List.length_take]
    omega
  rcases h3 with rfl | ⟨p, r, rfl⟩
  · exfalso
    simp [workerResults] at hlenpre
    omega
  · have hp : workerResults (p ++ [Event.result r]) = workerResults p ++ [r] := by
      rw [workerResults_append]
      rfl
    refine ⟨p, r, rest, _, ?_, ?_, ?_, h4, rfl, ?_, ?_⟩
    · simp [h1]
    · rw [hp] at hlenpre
      simp at hlenpre
      omega
    · rw [← hp, h2]
    · rw [hp]
    · simp [initState, interruptCount_append, interruptCount]

/-- An instance of `aggLoop_exits_after_last_result`: concurrency 1 on
`sampleRun`, where the loop exits after the first result and leaves the
interrupt and the second result unconsumed. -/
theorem aggLoop_exits_after_last_result_witness :
    (1 : Int) ≤ 1 ∧ (1 : Int) ≤ (workerResults sampleRun).length ∧
    ∃ pre r rest st,
      sampleRun = pre ++ Event.result r :: rest ∧
      aggLoop 1 initState sampleRun = some (st, rest) ∧
      st.responders = 1 := by
  obtain ⟨_, pre, r, rest, st, h1, _, _, h4, h5, _⟩ :=
    aggLoop_exits_after_last_result 1 (by decide) sampleRun (by decide)
  exact ⟨by decide, by decide, pre, r, rest, st, h1, h4, h5⟩

/-! ## After the loop: the empty report and the two divisions -/

/-- C4: for every concurrency `goroutines` (zero and negative values
included) and every event stream that holds at least that many results, if
every result the loop merges has `NumRequests = 0`, whatever its other fields,
then `main` ends in the `No statistics collected` branch, which returns before
either division. -/
theorem aggregate_no_statistics (goroutines : Int) (evs : List Event)
    (hlen : goroutines ≤ (workerResults evs).length)
    (hz : ∀ w ∈ (workerResults evs).take goroutines.toNat, w.NumRequests = 0) :
    aggregate goroutines evs = some Outcome.noStatistics := by
  obtain ⟨st, rest, hrun, hagg, _, _⟩ := aggLoop_total goroutines evs hlen
  have hnum : st.aggStats.NumRequests = 0 := by
    rw [hagg, foldl_merge_numRequests, sum_numRequests_zero _ hz]
    decide
  simp [aggregate, hrun, postMerge, hnum]

/-- An instance of `aggregate_no_statistics`: two workers that only counted
errors, concurrency 2. -/
theorem aggregate_no_statistics_witness :
    (2 : Int) ≤ (workerResults sampleIdleRun).length ∧
    (∀ w ∈ (workerResults sampleIdleRun).take (2 : Int).toNat, w.NumRequests = 0) ∧
    aggregate 2 sampleIdleRun = some Outcome.noStatistics :=
  ⟨by decide, by decide,
    aggregate_no_statistics 2 sampleIdleRun (by decide) (by decide)⟩

/-- C5: for every concurrency and every event stream with at least that many
results, if each merged worker result has `NumRequests ≥ 0` and, when its
`NumRequests > 0`, `MinRequestTime ≤ MaxRequestTime` (a result with
`NumRequests = 0` may hold any values), then the loop exits with an aggregate
that satisfies `MinRequestTime ≤ MaxRequestTime` whenever its
`NumRequests > 0`. -/
theorem aggLoop_min_le_max (goroutines : Int) (evs : List Event)
    (hlen : goroutines ≤ (workerResults evs).length)
    (hw : ∀ w ∈ (workerResults evs).take goroutines.toNat,
      0 ≤ w.NumRequests ∧ (0 < w.NumRequests → w.MinRequestTime ≤ w.MaxRequestTime)) :
    ∃ st rest, aggLoop goroutines initState evs = some (st, rest) ∧
      (0 < st.aggStats.NumRequests →
        st.aggStats.MinRequestTime ≤ st.aggStats.MaxRequestTime) := by
  obtain ⟨st, rest, hrun, hagg, _, _⟩ := aggLoop_total goroutines evs hlen
  refine ⟨st, rest, hrun, ?_⟩
  intro hpos
  rw [hagg] at hpos ⊢
  generalize (workerResults evs).take goroutines.toNat = ws at hw hpos ⊢
  have hex : ∃ w ∈ ws, 0 < w.NumRequests := by
    by_contra hno
    have hz : ∀ w ∈ ws, w.NumRequests = 0 := by
      intro w hmem
      have h0 := (hw w hmem).1
      have h1 : ¬ 0 < w.NumRequests := fun h => hno ⟨w, hmem, h⟩
      omega
    rw [foldl_merge_numRequests, sum_numRequests_zero _ hz] at hpos
    exact absurd hpos (by decide)
  obtain ⟨w, hmem, hwpos⟩ := hex
  have hmin := (foldl_merge_min ws initState.aggStats).2.1 w hmem
  have hmax := (foldl_merge_max ws initState.aggStats).2.1 w hmem
  have := (hw w hmem).2 hwpos
  omega

/-- An instance of `aggLoop_min_le_max`: a worker without a completed request
(`MinRequestTime` one minute, `MaxRequestTime` zero) and one with two. -/
theorem aggLoop_min_le_max_witness :
    (2 : Int) ≤ (workerResults sampleMixedRun).length ∧
    (∀ w ∈ (workerResults sampleMixedRun).take (2 : Int).toNat,
      0 ≤ w.NumRequests ∧ (0 < w.NumRequests → w.MinRequestTime ≤ w.MaxRequestTime)) ∧
    ∃ st rest, aggLoop 2 initState sampleMixedRun = some (st, rest) ∧
      (0 < st.aggStats.NumRequests →
        st.aggStats.MinRequestTime ≤ st.aggStats.MaxRequestTime) :=
  ⟨by decide, by decide, aggLoop_min_le_max 2 sampleMixedRun (by decide) (by decide)⟩

/-- C6: for every concurrency `goroutines` and every event stream with at
least that many results, the loop exits, and whenever the merged
`NumRequests` is not zero: the responder count the code divides by is the
concurrency and is not zero, the divisor `NumRequests` is not zero, and the
report holds `avgThreadDur = TotDuration / goroutines` and
`avgReqTime = TotDuration / NumRequests`, both Go's truncating `int64`
division.  The first quotient is the exact truncated quotient; so is the
second unless `NumRequests = -1` (Go wraps `math.MinInt64 / -1`). -/
theorem aggregate_report_divisions (goroutines : Int) (evs : List Event)
    (hlen : goroutines ≤ (workerResults evs).length) :
    ∃ st rest, aggLoop goroutines initState evs = some (st, rest) ∧
      (st.aggStats.NumRequests ≠ 0 →
        st.responders = goroutines ∧ goroutines ≠ 0 ∧
        goDiv st.aggStats.TotDuration st.responders =
          some (Int.tdiv st.aggStats.TotDuration goroutines) ∧
        goDiv st.aggStats.TotDuration st.aggStats.NumRequests =
          some (wrapInt64 (Int.tdiv st.aggStats.TotDuration st.aggStats.NumRequests)) ∧
        (st.aggStats.NumRequests ≠ -1 →
          wrapInt64 (Int.tdiv st.aggStats.TotDuration st.aggStats.NumRequests) =
            Int.tdiv st.aggStats.TotDuration st.aggStats.NumRequests) ∧
        aggregate goroutines evs =
          some (Outcome.report
            (Int.tdiv st.aggStats.TotDuration goroutines)
            (wrapInt64 (Int.tdiv st.aggStats.TotDuration st.aggStats.NumRequests))
            st.aggStats)) := by
  obtain ⟨st, rest, hrun, hagg, hge, hle⟩ := aggLoop_total goroutines evs hlen
  refine ⟨st, rest, hrun, ?_⟩
  intro hnz
  have hfit := foldl_merge_totDuration_fits ((workerResults evs).take goroutines.toNat)
  rw [← hagg] at hfit
  have hpos : 0 < goroutines := by
    by_contra hneg
    have h0 : goroutines.toNat = 0 := by omega
    rw [h0, List.take_zero] at hagg
    apply hnz
    rw [hagg]
    rfl
  have hresp : st.responders = goroutines := hge (by omega)
  have hg0 : goroutines ≠ 0 := by omega
  have hq1 : goDiv st.aggStats.TotDuration st.responders =
      some (Int.tdiv st.aggStats.TotDuration goroutines) := by
    rw [hresp]
    simp only [goDiv, hg0, if_false]
    rw [tdiv_fits _ _ hfit.1 hfit.2 hg0 (by omega)]
  have hq2 : goDiv st.aggStats.TotDuration st.aggStats.NumRequests =
      some (wrapInt64 (Int.tdiv st.aggStats.TotDuration st.aggStats.NumRequests)) := by
    simp only [goDiv, hnz, if_false]
  refine ⟨hresp, hg0, hq1, hq2, ?_, ?_⟩
  · intro hm1
    exact tdiv_fits _ _ hfit.1 hfit.2 hnz (fun h => absurd h hm1)
  · simp only [aggregate, hrun, postMerge, hnz, if_false, hq1, hq2]

/-- An instance of `aggregate_report_divisions`: `sampleRun` with concurrency
2 merges to `TotDuration = 70` and `NumRequests = 4`, so the report holds
`70 / 2 = 35` and `70 / 4 = 17`. -/
theorem aggregate_report_divisions_witness :
    (2 : Int) ≤ (workerResults sampleRun).length ∧
    aggregate 2 sampleRun =
      some (Outcome.report 35 17
        { TotRespSize := 150, TotDuration := 70, MinRequestTime := 5,
          MaxRequestTime := 35, NumRequests := 4, NumErrs := 1 }) := by
  refine ⟨by decide, ?_⟩
  obtain ⟨st, rest, hrun, h⟩ := aggregate_report_divisions 2 sampleRun (by decide)
  have hst : some (st, rest) = some
      (({ responders := 2
          aggStats :=
            { TotRespSize := 150, TotDuration := 70, MinRequestTime := 5,
              MaxRequestTime := 35, NumRequests := 4, NumErrs := 1 }
          stopCalls := 1 } : LoopState), ([] : List Event)) := by
    rw [← hrun]
    decide
  cases hst
  rw [(h (by decide)).2.2.2.2.2]
  decide

/-! ## The addresses given to the workers -/

/-- C7: round-robin assignment.  For every concurrency `C`, every client pool
and server pool, and every worker index `i` with `0 ≤ i < C`, the loop of line
165 starts `C` workers without an index panic, and worker `i` is given
`cips[i mod k]` for a client pool of `k ≥ 1` addresses (the index is in
bounds) and the empty address `net.IP{}` for an empty pool; the same holds,
independently, for the server pool. -/
theorem spawnWorkers_round_robin (C : Int) (cips sips : List IP) (i : Nat)
    (hi : (i : Int) < C) :
    ∃ workers c s, spawnWorkers C cips sips = some workers ∧
      workers.length = C.toNat ∧ workers[i]? = some (c, s) ∧
      (cips ≠ [] → i % cips.length < cips.length ∧ cips[i % cips.length]? = some c) ∧
      (cips = [] → c = IP.bytes []) ∧
      (sips ≠ [] → i % sips.length < sips.length ∧ sips[i % sips.length]? = some s) ∧
      (sips = [] → s = IP.bytes []) := by
  obtain ⟨workers, hrun, hlen, hall⟩ := spawnFrom_spec cips sips C.toNat 0
  obtain ⟨c, s, hget, hc, hs⟩ := hall i (by omega)
  rw [Nat.zero_add] at hc hs
  refine ⟨workers, c, s, by simpa [spawnWorkers] using hrun, hlen, hget, ?_, ?_, ?_, ?_⟩
  · intro hne
    obtain ⟨hlt, hpick⟩ := pickIP_nonempty cips hne i
    exact ⟨hlt, by rw [← hpick, hc]⟩
  · intro he
    rw [he, pickIP_empty] at hc
    exact (Option.some.inj hc).symm
  · intro hne
    obtain ⟨hlt, hpick⟩ := pickIP_nonempty sips hne i
    exact ⟨hlt, by rw [← hpick, hs]⟩
  · intro he
    rw [he, pickIP_empty] at hs
    exact (Option.some.inj hs).symm

/-- An instance of `spawnWorkers_round_robin`: five workers, a client pool of
two addresses and no server pool; worker 3 is given the second client
address and the empty server address. -/
theorem spawnWorkers_round_robin_witness :
    ((3 : Nat) : Int) < 5 ∧
    ∃ workers, spawnWorkers 5 [IP.bytes [10, 0, 0, 1], IP.bytes [10, 0, 0, 2]] [] =
        some workers ∧
      workers[3]? = some (IP.bytes [10, 0, 0, 2], IP.bytes []) := by
  refine ⟨by decide, ?_⟩
  obtain ⟨workers, c, s, hrun, _, hget, hc, _, _, hs⟩ :=
    spawnWorkers_round_robin 5 [IP.bytes [10, 0, 0, 1], IP.bytes [10, 0, 0, 2]] [] 3
      (by decide)
  have hc2 := (hc (by decide)).2
  have hs2 := hs rfl
  have hc3 : c = IP.bytes [10, 0, 0, 2] := by
    have : some (IP.bytes [10, 0, 0, 2]) = some c := hc2
    exact (Option.some.inj this).symm
  subst hc3 hs2
  exact ⟨workers, hrun, hget⟩

/-! ## Validation of the server pool -/

/-- C8, evaluated at the failing input `-msp 10.0.0.1 http://ServerIP/ping`:
the URL does not contain the token `<ServerIP>`, yet line 150 tests for
`ServerIP` only, so configuration succeeds and both workers are started. -/
theorem startSession_accepts_url_without_token (host : Host) :
    Contains "http://ServerIP/ping".toList "<ServerIP>".toList = false ∧
    startSession host [] "10.0.0.1".toList "http://ServerIP/ping".toList none 10 2 =
      Except.ok
        ({ testUrl := "http://ServerIP/ping".toList
           timeoutms := 10000
           cips := []
           sips := [host.parseIP "10.0.0.1".toList] },
         some [(IP.bytes [], host.parseIP "10.0.0.1".toList),
               (IP.bytes [], host.parseIP "10.0.0.1".toList)]) := by
  refine ⟨by decide, ?_⟩
  simp [startSession, configure, Contains, splitComma, serverPool, sessionTimeout,
    flagIntVar, scaleTimeout, spawnWorkers, spawnFrom, pickIP, goIndex, wrapInt64]

/-- C9, evaluated at the failing input `-msp bogus http://<ServerIP>/ping`:
when `net.ParseIP` answers nil for the entry, lines 155-157 append that nil to
the server pool without a test, configuration succeeds, and the worker is
started with the nil address. -/
theorem startSession_keeps_unparsed_server_ip (host : Host)
    (hbad : host.parseIP "bogus".toList = IP.nil) :
    startSession host [] "bogus".toList "http://<ServerIP>/ping".toList none 10 1 =
      Except.ok
        ({ testUrl := "http://<ServerIP>/ping".toList
           timeoutms := 10000
           cips := []
           sips := [IP.nil] },
         some [(IP.bytes [], IP.nil)]) := by
  have h : startSession host [] "bogus".toList "http://<ServerIP>/ping".toList none 10 1 =
      Except.ok
        ({ testUrl := "http://<ServerIP>/ping".toList
           timeoutms := 10000
           cips := []
           sips := [host.parseIP "bogus".toList] },
         some [(IP.bytes [], host.parseIP "bogus".toList)]) := rfl
  rw [h, hbad]

/-- An instance of `startSession_keeps_unparsed_server_ip`, on a host whose
`net.ParseIP` rejects the entry. -/
theorem startSession_keeps_unparsed_server_ip_witness :
    sampleHost.parseIP "bogus".toList = IP.nil ∧
    startSession sampleHost [] "bogus".toList "http://<ServerIP>/ping".toList none 10 1 =
      Except.ok
        ({ testUrl := "http://<ServerIP>/ping".toList
           timeoutms := 10000
           cips := []
           sips := [IP.nil] },
         some [(IP.bytes [], IP.nil)]) :=
  ⟨rfl, startSession_keeps_unparsed_server_ip sampleHost rfl⟩

/-! ## The timeout -/

/-- C10, as stated, fails: with `-T 1000` given on the command line and a
duration of 10 seconds, the timeout handed to `loader.NewLoadCfg` is 10000
milliseconds, not 1000. -/
theorem explicit_timeout_1000_is_scaled :
    configure sampleHost [] [] "http://localhost/".toList (some 1000) 10 =
      Except.ok
        { testUrl := "http://localhost/".toList
          timeoutms := 10000
          cips := []
          sips := [] } ∧
    sessionTimeout (some 1000) 10 ≠ 1000 :=
  ⟨rfl, by decide⟩

/-- C10 (amended): for every duration `d`, the timeout handed to the load
configuration is `1000 * d` milliseconds (in `int`, so exactly `1000 * d`
whenever that fits in 64 bits) when `-T` is left at its default and also when
`-T 1000` is given, and it is exactly `T` milliseconds for every supplied
value `T` other than 1000; a configuration that succeeds carries that
timeout. -/
theorem sessionTimeout_rule (d : Int) :
    sessionTimeout none d = wrapInt64 (1000 * d) ∧
    sessionTimeout (some 1000) d = wrapInt64 (1000 * d) ∧
    (∀ T : Int, T ≠ 1000 → sessionTimeout (some T) d = T) ∧
    (-2 ^ 63 ≤ 1000 * d → 1000 * d < 2 ^ 63 → wrapInt64 (1000 * d) = 1000 * d) ∧
    (∀ (host : Host) (clientIps serverIps testUrl : List Char) (argT : Option Int)
        (setup : LoadSetup),
      configure host clientIps serverIps testUrl argT d = Except.ok setup →
        setup.timeoutms = sessionTimeout argT d) := by
  refine ⟨rfl, rfl, ?_, wrapInt64_of_fits _, ?_⟩
  · intro T hT
    simp [sessionTimeout, flagIntVar, scaleTimeout, hT]
  · intro host clientIps serverIps testUrl argT setup h
    unfold configure at h
    split at h
    · exact absurd h (by simp)
    · split at h
      · split at h
        · exact absurd h (by simp)
        · cases h
          rfl
      · cases h
        rfl

/-! ## What the validation of lines 131-158 does establish -/

/-- With a non-empty `-msp` argument, configuration succeeds only for a URL
that contains the text `ServerIP` (line 150). -/
theorem configure_requires_ServerIP_text (host : Host)
    (clientIps serverIps testUrl : List Char) (argT : Option Int) (duration : Int)
    (setup : LoadSetup) (hs : serverIps ≠ [])
    (h : configure host clientIps serverIps testUrl argT duration = Except.ok setup) :
    Contains testUrl "ServerIP".toList = true := by
  unfold configure at h
  split at h
  · exact absurd h (by simp)
  · rw [if_pos hs] at h
    split at h
    · exact absurd h (by simp)
    · rename_i hc
      simpa using hc

/-- An instance of `configure_requires_ServerIP_text`: the loopback address
as the server pool. -/
theorem configure_requires_ServerIP_text_witness :
    "127.0.0.1".toList ≠ [] ∧
    configure sampleLoopbackHost [] "127.0.0.1".toList "http://<ServerIP>/ping".toList
        none 10 =
      Except.ok
        { testUrl := "http://<ServerIP>/ping".toList
          timeoutms := 10000
          cips := []
          sips := [IP.bytes [0, 0, 0, 0, 0, 0, 0, 0, 0, 0, 255, 255, 127, 0, 0, 1]] } ∧
    Contains "http://<ServerIP>/ping".toList "ServerIP".toList = true :=
  ⟨by decide, rfl,
    configure_requires_ServerIP_text sampleLoopbackHost [] "127.0.0.1".toList
      "http://<ServerIP>/ping".toList none 10 _ (by decide) rfl⟩

/-- On a host where `net.IP.Equal` tells the nil address from every address of
an interface, a configuration that succeeds has no nil address in its client
pool: an entry of `-mcp` that `net.ParseIP` rejects fails the test of
`util.CheckIPAvailable` and the process exits. -/
theorem configure_client_pool_no_nil (host : Host)
    (hnil : ∀ interfaces, host.interfaces = Except.ok interfaces →
      ∀ addrs, Except.ok addrs ∈ interfaces →
        ∀ x, Addr.ipNet x ∈ addrs → host.ipEqual IP.nil x = false)
    (clientIps serverIps testUrl : List Char) (argT : Option Int) (duration : Int)
    (setup : LoadSetup)
    (h : configure host clientIps serverIps testUrl argT duration = Except.ok setup) :
    IP.nil ∉ setup.cips := by
  unfold configure at h
  split at h
  · exact absurd h (by simp)
  · rename_i cips hc
    have hcips : IP.nil ∉ cips := by
      split at hc
      · exact clientPool_no_nil host hnil _ [] cips (by simp) hc
      · cases hc
        simp
    split at h
    · split at h
      · exact absurd h (by simp)
      · cases h
        exact hcips
    · cases h
      exact hcips

/-- An instance of `configure_client_pool_no_nil`: the loopback address as
the client pool, on the host that holds it. -/
theorem configure_client_pool_no_nil_witness :
    (∀ interfaces, sampleLoopbackHost.interfaces = Except.ok interfaces →
      ∀ addrs, Except.ok addrs ∈ interfaces →
        ∀ x, Addr.ipNet x ∈ addrs → sampleLoopbackHost.ipEqual IP.nil x = false) ∧
    configure sampleLoopbackHost "127.0.0.1".toList [] "http://localhost/".toList none 10 =
      Except.ok
        { testUrl := "http://localhost/".toList
          timeoutms := 10000
          cips := [IP.bytes [0, 0, 0, 0, 0, 0, 0, 0, 0, 0, 255, 255, 127, 0, 0, 1]]
          sips := [] } ∧
    IP.nil ∉ [IP.bytes [0, 0, 0, 0, 0, 0, 0, 0, 0, 0, 255, 255, 127, 0, 0, 1]] := by
  have hnil : ∀ interfaces, sampleLoopbackHost.interfaces = Except.ok interfaces →
      ∀ addrs, Except.ok addrs ∈ interfaces →
        ∀ x, Addr.ipNet x ∈ addrs → sampleLoopbackHost.ipEqual IP.nil x = false := by
    intro interfaces hi addrs ha x hx
    have hi1 : interfaces = [Except.ok [Addr.other, Addr.ipNet (IP.bytes [127, 0, 0, 1])]] :=
      (Except.ok.inj hi).symm
    subst hi1
    have ha1 : addrs = [Addr.other, Addr.ipNet (IP.bytes [127, 0, 0, 1])] := by
      simpa using ha
    subst ha1
    have hx1 : x = IP.bytes [127, 0, 0, 1] := by
      simpa using hx
    subst hx1
    rfl
  exact ⟨hnil, rfl,
    configure_client_pool_no_nil sampleLoopbackHost hnil "127.0.0.1".toList []
      "http://localhost/".toList none 10
      { testUrl := "http://localhost/".toList
        timeoutms := 10000
        cips := [IP.bytes [0, 0, 0, 0, 0, 0, 0, 0, 0, 0, 255, 255, 127, 0, 0, 1]]
        sips := [] } rfl⟩

end GoWrk
